import Mathlib

/-!
Shallow embedding of the "hard" backend's resilient stream reader
(`hardReader`, `appendSeekOption`, `Object.Open`, `hardReader.Read`,
`hardReader.Close`) from `backend/compress` of this repository.

The remote object capability is modelled as an oracle: a list of
`OpenResult`s consumed in order by successive open attempts, where a
successful open yields a scripted stream (a list of `ReadResult`s
consumed in order by successive reads on that handle).  Bytes are `Nat`
values.  `int64` offsets/limits are modelled as `Int` (no overflow is
relevant at the ranges involved).  Effectful calls are modelled by
explicit state passing: a read call maps (reader state, oracle) to
(new reader state, remaining oracle, delivered bytes, error, log of the
option lists passed to each underlying open attempt); `none` means the
call never returns in the model (the oracle is exhausted, corresponding
to the source's unbounded retry loop never being answered).
-/

namespace Hard

/-- An open option (`fs.OpenOption`): a seek directive (`fs.SeekOption`),
a range directive (`fs.RangeOption`), or any other caller-supplied
directive, kept opaque and identified by a tag. -/
inductive OpenOption where
  | seek (offset : Int)
  | range (start stop : Int)
  | other (tag : Nat)
deriving DecidableEq, Repr

/-- Errors observable through the reader's public boundary:
`fileClosed` models `chunkedreader.ErrorFileClosed`, `eofErr` models
`io.EOF`, `releaseErr c` models an arbitrary error returned by the
underlying handle's `Close`. -/
inductive Err where
  | fileClosed
  | eofErr
  | releaseErr (code : Nat)
deriving DecidableEq, Repr

/-- Outcome of one `rc.Read(p)` call on an underlying stream handle:
`ok bytes` is `(len(bytes), nil)`, `err bytes` is `(len(bytes), e)` for
some non-EOF error `e`, `eof bytes` is `(len(bytes), io.EOF)`. -/
inductive ReadResult where
  | ok (bytes : List Nat)
  | err (bytes : List Nat)
  | eof (bytes : List Nat)
deriving DecidableEq, Repr

/-- Outcome of one `o.Open(ctx, opts...)` call: failure, or a fresh
handle whose successive reads are scripted by `stream`. -/
inductive OpenResult where
  | fail
  | ok (stream : List ReadResult)
deriving DecidableEq, Repr

/-- The `hardReader` struct.  `o` is the wrapped `fs.Object` reference
(`some` = non-nil), `rc` the live stream handle: `some stream` holds the
script of the handle's remaining reads, `none` is a nil handle. -/
structure hardReader where
  o : Option Nat
  rc : Option (List ReadResult)
  options : List OpenOption
  offset : Int
  limit : Int
  eofReached : Bool
  closed : Bool
deriving DecidableEq, Repr

instance : DecidableEq (List Nat × Option Err × List (List OpenOption)) :=
  inferInstance

instance : DecidableEq
    (List OpenResult × List Nat × Option Err × List (List OpenOption)) :=
  inferInstance

instance : DecidableEq
    (hardReader × List OpenResult × List Nat × Option Err ×
      List (List OpenOption)) :=
  inferInstance

/-- `appendSeekOption` from the source: appends at most one seek or
range directive to `options` according to `(offset, limit)`. -/
def appendSeekOption (options : List OpenOption) (offset limit : Int) :
    List OpenOption :=
  if limit = -1 then
    if offset > 0 then
      options ++ [OpenOption.seek offset]
    else
      options
  else
    if offset > 0 then
      options ++ [OpenOption.range offset limit]
    else
      options

/-- Result of one iteration of the source's `for` loop in
`hardReader.Read`: `done` returns from the call, `again` continues the
loop, `blocked` means the oracle has no answer for a required I/O call
(the model's image of an underlying call that never completes).  `req`
records the option list passed to the underlying `Open` if this
iteration attempted one. -/
inductive Step where
  | done (r : hardReader) (opens : List OpenResult)
      (req : Option (List OpenOption)) (bytes : List Nat) (e : Option Err)
  | again (r : hardReader) (opens : List OpenResult)
      (req : Option (List OpenOption))
  | blocked
deriving DecidableEq, Repr

/-- The read attempt in the loop body: `n, err = r.rc.Read(p)` followed
by the source's handling of EOF, other errors, and success.  `stream` is
the script of `r.rc` (the caller passes `r` with `rc = some stream`). -/
def readStep (r : hardReader) (stream : List ReadResult)
    (opens : List OpenResult) (req : Option (List OpenOption)) : Step :=
  match stream with
  | [] => Step.blocked
  | ReadResult.eof bytes :: rest =>
      Step.done { r with rc := some rest, eofReached := true }
        opens req bytes (some Err.eofErr)
  | ReadResult.err bytes :: _ =>
      if bytes.length > 0 then
        Step.done
          { r with rc := none, offset := r.offset + (bytes.length : Int) }
          opens req bytes none
      else
        Step.again { r with rc := none } opens req
  | ReadResult.ok bytes :: rest =>
      Step.done
        { r with rc := some rest,
                 offset := r.offset + (bytes.length : Int) }
        opens req bytes none

/-- One iteration of the source's `for` loop: reopen if no live handle
(deriving options from the current offset and the fixed limit via
`appendSeekOption`), then read. -/
def step (r : hardReader) (opens : List OpenResult) : Step :=
  match r.rc with
  | some stream => readStep r stream opens none
  | none =>
      match opens with
      | [] => Step.blocked
      | res :: rest =>
          let req := appendSeekOption r.options r.offset r.limit
          match res with
          | OpenResult.fail => Step.again { r with rc := none } rest (some req)
          | OpenResult.ok stream =>
              readStep { r with rc := some stream } stream rest (some req)

/-- The source's `for` loop, iterated on fuel; `reqs` accumulates the
option lists of the underlying open attempts made so far. -/
def hardReadLoop : Nat → hardReader → List OpenResult →
    List (List OpenOption) →
    Option (hardReader × List OpenResult × List Nat × Option Err ×
      List (List OpenOption))
  | 0, _, _, _ => none
  | fuel + 1, r, opens, reqs =>
      match step r opens with
      | Step.done r' opens' req bytes e =>
          some (r', opens', bytes, e, reqs ++ req.toList)
      | Step.again r' opens' req => hardReadLoop fuel r' opens' (reqs ++ req.toList)
      | Step.blocked => none

/-- Fuel sufficient for the loop to reach a return or a blocked I/O
call: at most one iteration reads the pre-existing live handle without
consuming an oracle entry; every other iteration consumes one. -/
def loopFuel (opens : List OpenResult) : Nat :=
  2 * opens.length + 2

/-- `hardReader.Read` from the source: the three fast paths, then the
retry loop. -/
def hardReader.Read (r : hardReader) (opens : List OpenResult) :
    Option (hardReader × List OpenResult × List Nat × Option Err ×
      List (List OpenOption)) :=
  if r.closed then
    some (r, opens, [], some Err.fileClosed, [])
  else if r.eofReached then
    some (r, opens, [], some Err.eofErr, [])
  else if r.limit ≠ -1 ∧ r.limit ≤ r.offset then
    some ({ r with eofReached := true }, opens, [], some Err.eofErr, [])
  else
    hardReadLoop (loopFuel opens) r opens []

/-- `hardReader.Close` from the source.  `release` is the outcome the
underlying handle's `Close` would report (`none` = success, `some c` =
error `c`); it is consulted only when a live handle exists. -/
def hardReader.Close (r : hardReader) (release : Option Nat) :
    hardReader × Option Err :=
  if r.closed then
    (r, some Err.fileClosed)
  else
    let e : Option Err :=
      if r.rc.isSome then release.map Err.releaseErr else none
    ({ r with rc := none, o := none, closed := true }, e)

/-- The facade `Object`: the wrapped `fs.Object` reference and the value
its `Size()` reports (size is delegated to the wrapped object, which is
external to the core). -/
structure Object where
  objRef : Nat
  size : Int
deriving DecidableEq, Repr

/-- The fold over the caller's directives in `Object.Open`: a seek
directive overwrites the offset, a range directive is decoded against
the object's size overwriting offset and limit, anything else is
appended to the passthrough set.  `decode` stands for the external
`fs.RangeOption.Decode`: it maps (start, stop, size) to (offset, limit). -/
def scanOptions (decode : Int → Int → Int → Int × Int) (size : Int) :
    List OpenOption → List OpenOption × Int × Int → List OpenOption × Int × Int
  | [], acc => acc
  | opt :: rest, (passthrough, offset, limit) =>
      match opt with
      | OpenOption.seek off => scanOptions decode size rest (passthrough, off, limit)
      | OpenOption.range s e =>
          scanOptions decode size rest (passthrough, decode s e size)
      | OpenOption.other t =>
          scanOptions decode size rest
            (passthrough ++ [OpenOption.other t], offset, limit)

/-- `Object.Open` from the source: derive `(offset, limit)` and the
passthrough options from the caller's directives, construct a
`hardReader`, and return it with a nil error.  The model's open takes no
oracle: the call itself performs no I/O. -/
def Object.Open (o : Object) (decode : Int → Int → Int → Int × Int)
    (options : List OpenOption) : hardReader × Option Err :=
  let scanned := scanOptions decode o.size options ([], 0, -1)
  ({ o := some o.objRef, rc := none, options := scanned.1,
     offset := scanned.2.1, limit := scanned.2.2,
     eofReached := false, closed := false }, none)

/-- Whether a directive falls into the `default` arm of the switch in
`Object.Open` (neither a seek nor a range directive). -/
def isPassthrough : OpenOption → Bool
  | OpenOption.other _ => true
  | _ => false

/-- The cursor component of the fold in `Object.Open`: how the
directive list rewrites `(offset, limit)`. -/
def deriveOL (decode : Int → Int → Int → Int × Int) (size : Int) :
    List OpenOption → Int → Int → Int × Int
  | [], off, lim => (off, lim)
  | OpenOption.seek o :: rest, _, lim => deriveOL decode size rest o lim
  | OpenOption.range s e :: rest, _, _ =>
      deriveOL decode size rest (decode s e size).1 (decode s e size).2
  | OpenOption.other _ :: rest, off, lim => deriveOL decode size rest off lim

/-- A sequence of `k` successive read calls, threading reader state and
oracle; a blocked call leaves the state as it stands. -/
def runReads : Nat → hardReader → List OpenResult → hardReader
  | 0, r, _ => r
  | k + 1, r, opens =>
      match hardReader.Read r opens with
      | some (r', opens', _, _, _) => runReads k r' opens'
      | none => r

/-! ### Helper lemmas shared by the claim theorems -/

/-- Unfolding lemma for one loop iteration. -/
theorem hardReadLoop_succ (fuel : Nat) (r : hardReader)
    (opens : List OpenResult) (reqs : List (List OpenOption)) :
    hardReadLoop (fuel + 1) r opens reqs =
      match step r opens with
      | Step.done r' opens' req bytes e =>
          some (r', opens', bytes, e, reqs ++ req.toList)
      | Step.again r' opens' req => hardReadLoop fuel r' opens' (reqs ++ req.toList)
      | Step.blocked => none := rfl

/-- `loopFuel` is a successor, so the loop always unfolds at least once. -/
theorem loopFuel_eq (opens : List OpenResult) :
    loopFuel opens = (2 * opens.length + 1) + 1 := rfl

/-- A `readStep` that continues the loop comes from a zero-byte read
error; the continuation state has a nil handle and all cursor fields
unchanged. -/
theorem readStep_again_spec (r : hardReader) (stream : List ReadResult)
    (opens : List OpenResult) (req0 : Option (List OpenOption))
    (r' : hardReader) (opens' : List OpenResult)
    (req : Option (List OpenOption))
    (h : readStep r stream opens req0 = Step.again r' opens' req) :
    r' = { r with rc := none } ∧ opens' = opens ∧ req = req0 := by
  cases stream with
  | nil => simp [readStep] at h
  | cons hd rest =>
      cases hd with
      | eof bs => simp [readStep] at h
      | ok bs => simp [readStep] at h
      | err bs =>
          by_cases hb : bs.length > 0
          · simp [readStep, hb] at h
          · simp [readStep, hb] at h
            exact ⟨h.1.symm, h.2.1.symm, h.2.2.symm⟩

/-- A `readStep` that returns keeps the oracle and request tags it was
given, never decreases the offset, preserves a set `eofReached` flag,
keeps options/limit/closed, and only ever reports `eofErr` or success. -/
theorem readStep_done_spec (r : hardReader) (stream : List ReadResult)
    (opens : List OpenResult) (req0 : Option (List OpenOption))
    (r' : hardReader) (opens' : List OpenResult)
    (req : Option (List OpenOption)) (bytes : List Nat) (e : Option Err)
    (h : readStep r stream opens req0 = Step.done r' opens' req bytes e) :
    r.offset ≤ r'.offset ∧ (r.eofReached = true → r'.eofReached = true) ∧
      r'.options = r.options ∧ r'.limit = r.limit ∧ r'.closed = r.closed ∧
      opens' = opens ∧ req = req0 ∧ (e = none ∨ e = some Err.eofErr) := by
  cases stream with
  | nil => simp [readStep] at h
  | cons hd rest =>
      cases hd with
      | eof bs =>
          simp [readStep] at h
          obtain ⟨h1, h2, h3, h4, h5⟩ := h
          subst h1; subst h2; subst h3; subst h5
          simp
      | ok bs =>
          simp [readStep] at h
          obtain ⟨h1, h2, h3, h4, h5⟩ := h
          subst h1; subst h2; subst h3; subst h5
          refine ⟨by show r.offset ≤ r.offset + (bs.length : Int); omega, fun hh => hh, rfl, rfl, rfl, rfl, rfl, Or.inl rfl⟩
      | err bs =>
          by_cases hb : bs.length > 0
          · simp [readStep, hb] at h
            obtain ⟨h1, h2, h3, h4, h5⟩ := h
            subst h1; subst h2; subst h3; subst h5
            refine ⟨by show r.offset ≤ r.offset + (bs.length : Int); omega, fun hh => hh, rfl, rfl, rfl, rfl, rfl, Or.inl rfl⟩
          · simp [readStep, hb] at h

/-- A loop iteration that continues leaves the cursor (offset, limit),
the passthrough options, the flags and the closed bit unchanged, has a
nil handle, and any open request it made used options derived from the
current offset and the fixed limit. -/
theorem step_again_spec (r : hardReader) (opens : List OpenResult)
    (r' : hardReader) (opens' : List OpenResult)
    (req : Option (List OpenOption))
    (h : step r opens = Step.again r' opens' req) :
    r'.rc = none ∧ r'.offset = r.offset ∧ r'.limit = r.limit ∧
      r'.options = r.options ∧ r'.eofReached = r.eofReached ∧
      r'.closed = r.closed ∧
      (∀ q, req = some q → q = appendSeekOption r.options r.offset r.limit) := by
  cases hrc : r.rc with
  | some stream =>
      rw [step.eq_def, hrc] at h
      obtain ⟨h1, h2, h3⟩ := readStep_again_spec _ _ _ _ _ _ _ h
      subst h1; subst h3
      simp
  | none =>
      rw [step.eq_def, hrc] at h
      cases opens with
      | nil => simp at h
      | cons res rest =>
          cases res with
          | fail =>
              simp at h
              obtain ⟨h1, h2, h3⟩ := h
              subst h1; subst h3
              simp
          | ok stream =>
              simp at h
              obtain ⟨h1, h2, h3⟩ := readStep_again_spec _ _ _ _ _ _ _ h
              subst h1; subst h3
              simp

/-- A loop iteration that returns never decreases the offset, preserves
a set `eofReached` flag, keeps options/limit/closed, reports only
success or `eofErr`, and any open request it made used options derived
from the current offset and the fixed limit. -/
theorem step_done_spec (r : hardReader) (opens : List OpenResult)
    (r' : hardReader) (opens' : List OpenResult)
    (req : Option (List OpenOption)) (bytes : List Nat) (e : Option Err)
    (h : step r opens = Step.done r' opens' req bytes e) :
    r.offset ≤ r'.offset ∧ (r.eofReached = true → r'.eofReached = true) ∧
      r'.options = r.options ∧ r'.limit = r.limit ∧ r'.closed = r.closed ∧
      (e = none ∨ e = some Err.eofErr) ∧
      (∀ q, req = some q → q = appendSeekOption r.options r.offset r.limit) := by
  cases hrc : r.rc with
  | some stream =>
      rw [step.eq_def, hrc] at h
      obtain ⟨h1, h2, h3, h4, h5, h6, h7, h8⟩ := readStep_done_spec _ _ _ _ _ _ _ _ _ h
      subst h7
      exact ⟨h1, h2, h3, h4, h5, h8, by intro q hq; cases hq⟩
  | none =>
      rw [step.eq_def, hrc] at h
      cases opens with
      | nil => simp at h
      | cons res rest =>
          cases res with
          | fail => simp at h
          | ok stream =>
              simp at h
              obtain ⟨h1, h2, h3, h4, h5, h6, h7, h8⟩ := readStep_done_spec _ _ _ _ _ _ _ _ _ h
              subst h7
              refine ⟨h1, h2, h3, h4, h5, h8, ?_⟩
              intro q hq
              cases hq
              rfl

/-- Loop invariant: a loop run that returns never decreases the offset,
preserves a set `eofReached` flag and the closed bit, reports only
success or `eofErr`, and every logged open request beyond the
accumulator used options derived from the entry offset and the fixed
limit. -/
theorem hardReadLoop_spec (fuel : Nat) :
    ∀ (r : hardReader) (opens : List OpenResult)
      (reqs : List (List OpenOption)) (r' : hardReader)
      (opens' : List OpenResult) (bytes : List Nat) (e : Option Err)
      (reqsOut : List (List OpenOption)),
      hardReadLoop fuel r opens reqs = some (r', opens', bytes, e, reqsOut) →
      r.offset ≤ r'.offset ∧ (r.eofReached = true → r'.eofReached = true) ∧
        r'.closed = r.closed ∧ (e = none ∨ e = some Err.eofErr) ∧
        (∀ q ∈ reqsOut,
          q ∈ reqs ∨ q = appendSeekOption r.options r.offset r.limit) := by
  induction fuel with
  | zero =>
      intro r opens reqs r' opens' bytes e reqsOut h
      simp [hardReadLoop] at h
  | succ fuel ih =>
      intro r opens reqs r' opens' bytes e reqsOut h
      rw [hardReadLoop_succ] at h
      cases hstep : step r opens with
      | done r1 opens1 req1 bytes1 e1 =>
          rw [hstep] at h
          simp at h
          obtain ⟨h1, h2, h3, h4, h5⟩ := h
          subst h1; subst h2; subst h3; subst h4; subst h5
          obtain ⟨d1, d2, d3, d4, d5, d6, d7⟩ :=
            step_done_spec _ _ _ _ _ _ _ hstep
          refine ⟨d1, d2, d5, d6, ?_⟩
          intro q hq
          rcases List.mem_append.mp hq with hql | hqr
          · exact Or.inl hql
          · refine Or.inr (d7 q ?_)
            simpa [Option.mem_toList, Option.mem_def] using hqr
      | again r1 opens1 req1 =>
          rw [hstep] at h
          obtain ⟨i1, i2, i3, i4, i5⟩ :=
            ih r1 opens1 (reqs ++ req1.toList) r' opens' bytes e reqsOut h
          obtain ⟨a1, a2, a3, a4, a5, a6, a7⟩ :=
            step_again_spec _ _ _ _ _ hstep
          refine ⟨by omega, fun hh => i2 (by rw [a5]; exact hh),
            by rw [i3, a6], i4, ?_⟩
          intro q hq
          rcases i5 q hq with hql | hqr
          · rcases List.mem_append.mp hql with hqa | hqb
            · exact Or.inl hqa
            · refine Or.inr (a7 q ?_)
              simpa [Option.mem_toList, Option.mem_def] using hqb
          · rw [hqr, a4, a2, a3]
            exact Or.inr rfl
      | blocked =>
          rw [hstep] at h
          simp at h

/-- Single-call corollary of the loop invariant, covering the fast
paths as well. -/
theorem Read_invariants (r : hardReader) (opens : List OpenResult)
    (r' : hardReader) (opens' : List OpenResult) (bytes : List Nat)
    (e : Option Err) (reqs : List (List OpenOption))
    (h : hardReader.Read r opens = some (r', opens', bytes, e, reqs)) :
    r.offset ≤ r'.offset ∧ (r.eofReached = true → r'.eofReached = true) ∧
      (e = none ∨ e = some Err.eofErr ∨ e = some Err.fileClosed) ∧
      (∀ q ∈ reqs, q = appendSeekOption r.options r.offset r.limit) := by
  unfold hardReader.Read at h
  split at h
  · simp at h
    obtain ⟨h1, h2, h3, h4, h5⟩ := h
    subst h1; subst h2; subst h3; subst h4; subst h5
    simp
  split at h
  · simp at h
    obtain ⟨h1, h2, h3, h4, h5⟩ := h
    subst h1; subst h2; subst h3; subst h4; subst h5
    simp
  split at h
  · simp at h
    obtain ⟨h1, h2, h3, h4, h5⟩ := h
    subst h1; subst h2; subst h3; subst h4; subst h5
    simp
  · obtain ⟨i1, i2, i3, i4, i5⟩ :=
      hardReadLoop_spec (loopFuel opens) r opens [] r' opens' bytes e reqs h
    refine ⟨i1, i2, ?_, ?_⟩
    · rcases i4 with h4 | h4
      · exact Or.inl h4
      · exact Or.inr (Or.inl h4)
    · intro q hq
      rcases i5 q hq with hql | hqr
      · simp at hql
      · exact hqr

/-- The fold in `Object.Open` splits: the passthrough accumulator
collects exactly the passthrough directives in order, and the cursor is
rewritten by `deriveOL`. -/
theorem scanOptions_split (decode : Int → Int → Int → Int × Int)
    (size : Int) :
    ∀ (opts : List OpenOption) (p : List OpenOption) (off lim : Int),
      scanOptions decode size opts (p, off, lim) =
        (p ++ opts.filter isPassthrough, deriveOL decode size opts off lim) := by
  intro opts
  induction opts with
  | nil =>
      intro p off lim
      simp [scanOptions, deriveOL]
  | cons hd tl ih =>
      intro p off lim
      cases hd with
      | seek o =>
          simp [scanOptions, deriveOL, isPassthrough, ih]
      | range s e =>
          rcases hde : decode s e size with ⟨a, b⟩
          simp [scanOptions, deriveOL, isPassthrough, ih, hde]
      | other t =>
          simp [scanOptions, deriveOL, isPassthrough, ih]

/-- Passthrough directives do not affect the derived cursor. -/
theorem deriveOL_nonpassthrough (decode : Int → Int → Int → Int × Int)
    (size : Int) :
    ∀ (opts : List OpenOption) (off lim : Int),
      deriveOL decode size opts off lim =
        deriveOL decode size (opts.filter (fun x => !isPassthrough x)) off lim := by
  intro opts
  induction opts with
  | nil => intro off lim; simp
  | cons hd tl ih =>
      intro off lim
      cases hd with
      | seek o => simp [deriveOL, isPassthrough, ih]
      | range s e => simp [deriveOL, isPassthrough, ih]
      | other t => simp [deriveOL, isPassthrough, ih]

/-- Unfolding lemma for one read call in a sequence. -/
theorem runReads_succ (k : Nat) (r : hardReader) (opens : List OpenResult) :
    runReads (k + 1) r opens =
      match hardReader.Read r opens with
      | some (r', opens', _, _, _) => runReads k r' opens'
      | none => r := rfl

/-! ### Claim theorems -/

/-- Claim C1: Option derivation is a pure function of (offset, limit,
passthrough options) with exactly four cases: offset 0 with unbounded
limit leaves the passthrough options unchanged; positive offset with
unbounded limit appends exactly one seek-to-offset directive; positive
offset with bounded limit appends exactly one byte-range
[offset, limit) directive; offset 0 with bounded limit leaves the
passthrough options unchanged (no directive added). -/
theorem appendSeekOption_four_cases (opts : List OpenOption)
    (off lim : Int) :
    (off = 0 → lim = -1 → appendSeekOption opts off lim = opts) ∧
    (off > 0 → lim = -1 →
      appendSeekOption opts off lim = opts ++ [OpenOption.seek off]) ∧
    (off > 0 → lim ≠ -1 →
      appendSeekOption opts off lim = opts ++ [OpenOption.range off lim]) ∧
    (off = 0 → lim ≠ -1 → appendSeekOption opts off lim = opts) := by
  refine ⟨?_, ?_, ?_, ?_⟩ <;> intro h1 h2 <;> unfold appendSeekOption
  · rw [if_pos h2, if_neg (by omega)]
  · rw [if_pos h2, if_pos h1]
  · rw [if_neg h2, if_pos h1]
  · rw [if_neg h2, if_neg (by omega)]

/-- Witness for C1 at the spec's concrete inputs (offsets 0/100,
limits unbounded/500). -/
theorem appendSeekOption_four_cases_witness :
    appendSeekOption [OpenOption.other 9] 0 (-1) = [OpenOption.other 9] ∧
    appendSeekOption [OpenOption.other 9] 100 (-1) =
      [OpenOption.other 9, OpenOption.seek 100] ∧
    appendSeekOption [OpenOption.other 9] 100 500 =
      [OpenOption.other 9, OpenOption.range 100 500] ∧
    appendSeekOption [OpenOption.other 9] 0 500 = [OpenOption.other 9] :=
  ⟨(appendSeekOption_four_cases [OpenOption.other 9] 0 (-1)).1 rfl rfl,
   (appendSeekOption_four_cases [OpenOption.other 9] 100 (-1)).2.1
     (by decide) rfl,
   (appendSeekOption_four_cases [OpenOption.other 9] 100 500).2.2.1
     (by decide) (by decide),
   (appendSeekOption_four_cases [OpenOption.other 9] 0 500).2.2.2
     rfl (by decide)⟩

/-- Claim C2: every read call checks its fast paths before any I/O: it fails
with `ClosedStream` when closed; returns `(0, EndOfStream)` when
`endOfStreamReached`; and when the limit is bounded and
`limit ≤ offset` it sets `endOfStreamReached` and returns
`(0, EndOfStream)` without opening or reading from the remote (the
oracle is left untouched and no open request is logged). -/
theorem Read_fast_paths (r : hardReader) (opens : List OpenResult) :
    (r.closed = true →
      hardReader.Read r opens =
        some (r, opens, [], some Err.fileClosed, [])) ∧
    (r.closed = false → r.eofReached = true →
      hardReader.Read r opens = some (r, opens, [], some Err.eofErr, [])) ∧
    (r.closed = false → r.eofReached = false → r.limit ≠ -1 →
      r.limit ≤ r.offset →
      hardReader.Read r opens =
        some ({ r with eofReached := true }, opens, [],
          some Err.eofErr, [])) := by
  refine ⟨?_, ?_, ?_⟩
  · intro h1
    unfold hardReader.Read
    rw [if_pos h1]
  · intro h1 h2
    unfold hardReader.Read
    rw [if_neg (by simp [h1]), if_pos h2]
  · intro h1 h2 h3 h4
    unfold hardReader.Read
    rw [if_neg (by simp [h1]), if_neg (by simp [h2]), if_pos ⟨h3, h4⟩]

/-- Witness for C2: the three fast paths at concrete readers. -/
theorem Read_fast_paths_witness :
    hardReader.Read
      { o := some 0, rc := none, options := [], offset := 0, limit := -1,
        eofReached := false, closed := true }
      [OpenResult.fail] =
      some ({ o := some 0, rc := none, options := [], offset := 0,
              limit := -1, eofReached := false, closed := true },
        [OpenResult.fail], [], some Err.fileClosed, []) ∧
    hardReader.Read
      { o := some 0, rc := none, options := [], offset := 0, limit := -1,
        eofReached := true, closed := false }
      [OpenResult.fail] =
      some ({ o := some 0, rc := none, options := [], offset := 0,
              limit := -1, eofReached := true, closed := false },
        [OpenResult.fail], [], some Err.eofErr, []) ∧
    hardReader.Read
      { o := some 0, rc := none, options := [], offset := 7, limit := 5,
        eofReached := false, closed := false }
      [OpenResult.fail] =
      some ({ o := some 0, rc := none, options := [], offset := 7,
              limit := 5, eofReached := true, closed := false },
        [OpenResult.fail], [], some Err.eofErr, []) :=
  ⟨(Read_fast_paths _ _).1 rfl,
   (Read_fast_paths _ _).2.1 rfl rfl,
   (Read_fast_paths _ _).2.2 rfl rfl (by decide) (by decide)⟩

/-- Claim C4: when an underlying read error (other than end-of-data) occurs
after at least one byte was delivered in this call, the reader discards
the live handle, advances the offset by exactly the delivered count,
and returns that count with a nil error, swallowing the error.  Stated
for every loop iteration whose read attempt errors after delivering
bytes — whether the erroring handle was live at iteration entry or was
opened within the iteration itself — and at call level for both entry
shapes (live erroring handle at call entry, and nil handle at call
entry with the freshly opened stream erroring after delivery). -/
theorem Read_partial_error_swallowed (r : hardReader)
    (opens restOpens : List OpenResult) (bytes : List Nat)
    (rest : List ReadResult) (hb : bytes.length > 0) :
    (r.rc = some (ReadResult.err bytes :: rest) →
      step r opens =
        Step.done
          { r with rc := none, offset := r.offset + (bytes.length : Int) }
          opens none bytes none) ∧
    (r.rc = none →
      step r (OpenResult.ok (ReadResult.err bytes :: rest) :: restOpens) =
        Step.done
          { r with rc := none, offset := r.offset + (bytes.length : Int) }
          restOpens (some (appendSeekOption r.options r.offset r.limit))
          bytes none) ∧
    (r.closed = false → r.eofReached = false →
      ¬(r.limit ≠ -1 ∧ r.limit ≤ r.offset) →
      r.rc = some (ReadResult.err bytes :: rest) →
      hardReader.Read r opens =
        some ({ r with rc := none,
                       offset := r.offset + (bytes.length : Int) },
          opens, bytes, none, [])) ∧
    (r.closed = false → r.eofReached = false →
      ¬(r.limit ≠ -1 ∧ r.limit ≤ r.offset) →
      r.rc = none →
      hardReader.Read r
        (OpenResult.ok (ReadResult.err bytes :: rest) :: restOpens) =
        some ({ r with rc := none,
                       offset := r.offset + (bytes.length : Int) },
          restOpens, bytes, none,
          [appendSeekOption r.options r.offset r.limit])) := by
  have hstep1 : r.rc = some (ReadResult.err bytes :: rest) →
      step r opens =
        Step.done
          { r with rc := none, offset := r.offset + (bytes.length : Int) }
          opens none bytes none := by
    intro hrc
    rw [step.eq_def, hrc]
    simp [readStep, hb]
  have hstep2 : r.rc = none →
      step r (OpenResult.ok (ReadResult.err bytes :: rest) :: restOpens) =
        Step.done
          { r with rc := none, offset := r.offset + (bytes.length : Int) }
          restOpens (some (appendSeekOption r.options r.offset r.limit))
          bytes none := by
    intro hrc
    rw [step.eq_def, hrc]
    simp [readStep, hb]
  refine ⟨hstep1, hstep2, ?_, ?_⟩
  · intro hc he hl hrc
    unfold hardReader.Read
    rw [if_neg (by simp [hc]), if_neg (by simp [he]), if_neg hl]
    rw [loopFuel_eq, hardReadLoop_succ, hstep1 hrc]
    rfl
  · intro hc he hl hrc
    unfold hardReader.Read
    rw [if_neg (by simp [hc]), if_neg (by simp [he]), if_neg hl]
    rw [loopFuel_eq, hardReadLoop_succ, hstep2 hrc]
    rfl

/-- Witness for C4: a transient error after two delivered bytes is
swallowed in both entry shapes — erroring handle live at call entry,
and handle opened within the call — dropping the handle and advancing
the offset by 2. -/
theorem Read_partial_error_swallowed_witness :
    step
      { o := some 0, rc := some [ReadResult.err [54, 55]], options := [],
        offset := 6, limit := -1, eofReached := false, closed := false }
      [] =
      Step.done
        { o := some 0, rc := none, options := [], offset := 8,
          limit := -1, eofReached := false, closed := false }
        [] none [54, 55] none ∧
    step
      { o := some 0, rc := none, options := [], offset := 6, limit := -1,
        eofReached := false, closed := false }
      [OpenResult.ok [ReadResult.err [54, 55]]] =
      Step.done
        { o := some 0, rc := none, options := [], offset := 8,
          limit := -1, eofReached := false, closed := false }
        [] (some [OpenOption.seek 6]) [54, 55] none ∧
    hardReader.Read
      { o := some 0, rc := some [ReadResult.err [54, 55]], options := [],
        offset := 6, limit := -1, eofReached := false, closed := false }
      [] =
      some ({ o := some 0, rc := none, options := [], offset := 8,
              limit := -1, eofReached := false, closed := false },
        [], [54, 55], none, []) ∧
    hardReader.Read
      { o := some 0, rc := none, options := [], offset := 6, limit := -1,
        eofReached := false, closed := false }
      [OpenResult.ok [ReadResult.err [54, 55]]] =
      some ({ o := some 0, rc := none, options := [], offset := 8,
              limit := -1, eofReached := false, closed := false },
        [], [54, 55], none, [[OpenOption.seek 6]]) :=
  ⟨(Read_partial_error_swallowed
      { o := some 0, rc := some [ReadResult.err [54, 55]], options := [],
        offset := 6, limit := -1, eofReached := false, closed := false }
      [] [] [54, 55] [] (by decide)).1 rfl,
   (Read_partial_error_swallowed
      { o := some 0, rc := none, options := [], offset := 6, limit := -1,
        eofReached := false, closed := false }
      [] [] [54, 55] [] (by decide)).2.1 rfl,
   (Read_partial_error_swallowed
      { o := some 0, rc := some [ReadResult.err [54, 55]], options := [],
        offset := 6, limit := -1, eofReached := false, closed := false }
      [] [] [54, 55] [] (by decide)).2.2.1 rfl rfl (by decide) rfl,
   (Read_partial_error_swallowed
      { o := some 0, rc := none, options := [], offset := 6, limit := -1,
        eofReached := false, closed := false }
      [] [] [54, 55] [] (by decide)).2.2.2 rfl rfl (by decide) rfl⟩

/-- Claim C5: transient underlying failures are never surfaced through a read
call: whatever sequence of open failures and read errors the oracle
supplies, a returning read call reports only a nil error,
`EndOfStream`, or `ClosedStream`, and every reopen it performed used
the options derived (by `appendSeekOption`) from the call's offset and
the fixed limit. -/
theorem Read_transparent_errors (r : hardReader) (opens : List OpenResult)
    (r' : hardReader) (opens' : List OpenResult) (bytes : List Nat)
    (e : Option Err) (reqs : List (List OpenOption))
    (h : hardReader.Read r opens = some (r', opens', bytes, e, reqs)) :
    (e = none ∨ e = some Err.eofErr ∨ e = some Err.fileClosed) ∧
    (∀ q ∈ reqs, q = appendSeekOption r.options r.offset r.limit) := by
  obtain ⟨-, -, h3, h4⟩ := Read_invariants r opens r' opens' bytes e reqs h
  exact ⟨h3, h4⟩

/-- Witness for C5: a call that survives an open failure and a
zero-byte read error still returns a nil error, and both reopens used
the derived range options. -/
theorem Read_transparent_errors_witness :
    ((none : Option Err) = none ∨ (none : Option Err) = some Err.eofErr ∨
      (none : Option Err) = some Err.fileClosed) ∧
    (∀ q ∈ [[OpenOption.range 3 8], [OpenOption.range 3 8]],
      q = appendSeekOption [] 3 8) :=
  Read_transparent_errors
    { o := some 1, rc := none, options := [], offset := 3, limit := 8,
      eofReached := false, closed := false }
    [OpenResult.fail,
     OpenResult.ok [ReadResult.ok [51, 52, 53], ReadResult.err []]]
    { o := some 1, rc := some [ReadResult.err []], options := [],
      offset := 6, limit := 8, eofReached := false, closed := false }
    [] [51, 52, 53] none [[OpenOption.range 3 8], [OpenOption.range 3 8]]
    (by decide)

/-- Claim C6: a second close fails with `ClosedStream`; otherwise a live
handle's release error is propagated, no error is reported without a
live handle, and in every non-already-closed case the object reference
and handle are cleared and the reader is marked closed, regardless of
the release outcome. -/
theorem Close_spec (r : hardReader) (release : Option Nat) :
    (r.closed = true →
      hardReader.Close r release = (r, some Err.fileClosed)) ∧
    (r.closed = false → r.rc.isSome = true →
      (hardReader.Close r release).2 = release.map Err.releaseErr) ∧
    (r.closed = false → r.rc = none →
      (hardReader.Close r release).2 = none) ∧
    (r.closed = false →
      (hardReader.Close r release).1 =
        { r with rc := none, o := none, closed := true }) := by
  refine ⟨?_, ?_, ?_, ?_⟩
  · intro h1
    unfold hardReader.Close
    rw [if_pos h1]
  · intro h1 h2
    unfold hardReader.Close
    rw [if_neg (by simp [h1])]
    simp [h2]
  · intro h1 h2
    unfold hardReader.Close
    rw [if_neg (by simp [h1])]
    simp [h2]
  · intro h1
    unfold hardReader.Close
    rw [if_neg (by simp [h1])]

/-- Witness for C6: closing an open reader with a live handle whose
release fails with code 7 propagates the error yet clears the state;
closing the resulting closed reader fails with `ClosedStream`; closing
an open reader without a live handle reports no error. -/
theorem Close_spec_witness :
    (hardReader.Close
      { o := some 0, rc := some [], options := [], offset := 1,
        limit := -1, eofReached := false, closed := false }
      (some 7)).2 = some (Err.releaseErr 7) ∧
    (hardReader.Close
      { o := some 0, rc := some [], options := [], offset := 1,
        limit := -1, eofReached := false, closed := false }
      (some 7)).1 =
      { o := none, rc := none, options := [], offset := 1, limit := -1,
        eofReached := false, closed := true } ∧
    hardReader.Close
      { o := none, rc := none, options := [], offset := 1, limit := -1,
        eofReached := false, closed := true } none =
      ({ o := none, rc := none, options := [], offset := 1, limit := -1,
         eofReached := false, closed := true }, some Err.fileClosed) ∧
    (hardReader.Close
      { o := some 0, rc := none, options := [], offset := 1, limit := -1,
        eofReached := false, closed := false } (some 7)).2 = none :=
  ⟨(Close_spec _ (some 7)).2.1 rfl rfl,
   (Close_spec _ (some 7)).2.2.2 rfl,
   (Close_spec _ none).1 rfl,
   (Close_spec _ (some 7)).2.2.1 rfl rfl⟩

/-- Claim C9: immediately after a failed open attempt and immediately after a
consumed read error — zero-byte or partial-delivery, on a live or on a
freshly opened handle — the live-stream handle is nil. -/
theorem handle_null_after_consumed_failures (r : hardReader)
    (opens rest : List OpenResult) (stream : List ReadResult)
    (bytes : List Nat) :
    (r.rc = none →
      step r (OpenResult.fail :: rest) =
        Step.again { r with rc := none } rest
          (some (appendSeekOption r.options r.offset r.limit))) ∧
    (r.rc = some (ReadResult.err [] :: stream) →
      step r opens = Step.again { r with rc := none } opens none) ∧
    (r.rc = none →
      step r (OpenResult.ok (ReadResult.err [] :: stream) :: rest) =
        Step.again { r with rc := none } rest
          (some (appendSeekOption r.options r.offset r.limit))) ∧
    (bytes.length > 0 → r.rc = some (ReadResult.err bytes :: stream) →
      step r opens =
        Step.done
          { r with rc := none,
                   offset := r.offset + (bytes.length : Int) }
          opens none bytes none) ∧
    (bytes.length > 0 → r.rc = none →
      step r (OpenResult.ok (ReadResult.err bytes :: stream) :: rest) =
        Step.done
          { r with rc := none,
                   offset := r.offset + (bytes.length : Int) }
          rest (some (appendSeekOption r.options r.offset r.limit))
          bytes none) := by
  refine ⟨?_, ?_, ?_, ?_, ?_⟩
  · intro h
    rw [step.eq_def, h]
  · intro h
    rw [step.eq_def, h]
    simp [readStep]
  · intro h
    rw [step.eq_def, h]
    simp [readStep]
  · intro hb h
    rw [step.eq_def, h]
    simp [readStep, hb]
  · intro hb h
    rw [step.eq_def, h]
    simp [readStep, hb]

/-- Witness for C9: the five consumed-failure shapes at a concrete
reader. -/
theorem handle_null_after_consumed_failures_witness :
    step
      { o := some 0, rc := none, options := [], offset := 2, limit := -1,
        eofReached := false, closed := false }
      [OpenResult.fail] =
      Step.again
        { o := some 0, rc := none, options := [], offset := 2,
          limit := -1, eofReached := false, closed := false }
        [] (some [OpenOption.seek 2]) ∧
    step
      { o := some 0, rc := some [ReadResult.err []], options := [],
        offset := 2, limit := -1, eofReached := false, closed := false }
      [] =
      Step.again
        { o := some 0, rc := none, options := [], offset := 2,
          limit := -1, eofReached := false, closed := false }
        [] none ∧
    step
      { o := some 0, rc := none, options := [], offset := 2, limit := -1,
        eofReached := false, closed := false }
      [OpenResult.ok [ReadResult.err []]] =
      Step.again
        { o := some 0, rc := none, options := [], offset := 2,
          limit := -1, eofReached := false, closed := false }
        [] (some [OpenOption.seek 2]) ∧
    step
      { o := some 0, rc := some [ReadResult.err [9, 9, 9]], options := [],
        offset := 2, limit := -1, eofReached := false, closed := false }
      [] =
      Step.done
        { o := some 0, rc := none, options := [], offset := 5,
          limit := -1, eofReached := false, closed := false }
        [] none [9, 9, 9] none ∧
    step
      { o := some 0, rc := none, options := [], offset := 2, limit := -1,
        eofReached := false, closed := false }
      [OpenResult.ok [ReadResult.err [9, 9, 9]]] =
      Step.done
        { o := some 0, rc := none, options := [], offset := 5,
          limit := -1, eofReached := false, closed := false }
        [] (some [OpenOption.seek 2]) [9, 9, 9] none :=
  ⟨(handle_null_after_consumed_failures _ [OpenResult.fail] [] [] []).1 rfl,
   (handle_null_after_consumed_failures _ [] [] [] []).2.1 rfl,
   (handle_null_after_consumed_failures _ [] [] [] []).2.2.1 rfl,
   (handle_null_after_consumed_failures _ [] [] [] [9, 9, 9]).2.2.2.1
     (by decide) rfl,
   (handle_null_after_consumed_failures _ [] [] [] [9, 9, 9]).2.2.2.2
     (by decide) rfl⟩

/-- Claim C10: even with offset 0 and a bounded limit no range directive is
derived for the remote, yet the bound is enforced client-side: a read
call that begins with `limit ≤ offset` consumes no oracle entry, logs
no open request, delivers no bytes and returns `(0, EndOfStream)`. -/
theorem bound_enforced_client_side (r : hardReader)
    (opens : List OpenResult) (lim : Int) :
    (lim ≠ -1 → appendSeekOption r.options 0 lim = r.options) ∧
    (r.closed = false → r.eofReached = false → r.limit ≠ -1 →
      r.limit ≤ r.offset →
      hardReader.Read r opens =
        some ({ r with eofReached := true }, opens, [],
          some Err.eofErr, [])) := by
  constructor
  · intro h
    unfold appendSeekOption
    rw [if_neg h, if_neg (by omega)]
  · intro h1 h2 h3 h4
    unfold hardReader.Read
    rw [if_neg (by simp [h1]), if_neg (by simp [h2]), if_pos ⟨h3, h4⟩]

/-- Witness for C10: with offset 0 and limit 500 no directive is added,
and a reader at offset 500 with limit 500 self-terminates without
touching the oracle. -/
theorem bound_enforced_client_side_witness :
    appendSeekOption [] 0 500 = [] ∧
    hardReader.Read
      { o := some 0, rc := none, options := [], offset := 500,
        limit := 500, eofReached := false, closed := false }
      [OpenResult.ok [ReadResult.ok [1]]] =
      some ({ o := some 0, rc := none, options := [], offset := 500,
              limit := 500, eofReached := true, closed := false },
        [OpenResult.ok [ReadResult.ok [1]]], [], some Err.eofErr, []) :=
  ⟨(bound_enforced_client_side
      { o := some 0, rc := none, options := [], offset := 500,
        limit := 500, eofReached := false, closed := false }
      [OpenResult.ok [ReadResult.ok [1]]] 500).1 (by decide),
   (bound_enforced_client_side
      { o := some 0, rc := none, options := [], offset := 500,
        limit := 500, eofReached := false, closed := false }
      [OpenResult.ok [ReadResult.ok [1]]] 500).2 rfl rfl (by decide)
     (by decide)⟩

/-- Claim C3: the spec's scenario.  The object holds the ten bytes
"0123456789" (ASCII 48..57); the reader starts at offset 3 with limit 8;
the first open fails; the second open succeeds and yields "345" (bytes
51 52 53) then a transient zero-byte read error, forcing one reopen at
offset 6 (with a byte-range [6, 8) directive); the third open yields
"67" (bytes 54 55) then end-of-stream.  The three successive read calls
return "345", then "67", then `(0, EndOfStream)`, and the reader's
final offset is 8. -/
theorem scenario_three_calls :
    hardReader.Read
      { o := some 1, rc := none, options := [], offset := 3, limit := 8,
        eofReached := false, closed := false }
      [OpenResult.fail,
       OpenResult.ok [ReadResult.ok [51, 52, 53], ReadResult.err []],
       OpenResult.ok [ReadResult.ok [54, 55], ReadResult.eof []]] =
      some ({ o := some 1, rc := some [ReadResult.err []], options := [],
              offset := 6, limit := 8, eofReached := false,
              closed := false },
        [OpenResult.ok [ReadResult.ok [54, 55], ReadResult.eof []]],
        [51, 52, 53], none,
        [[OpenOption.range 3 8], [OpenOption.range 3 8]]) ∧
    hardReader.Read
      { o := some 1, rc := some [ReadResult.err []], options := [],
        offset := 6, limit := 8, eofReached := false, closed := false }
      [OpenResult.ok [ReadResult.ok [54, 55], ReadResult.eof []]] =
      some ({ o := some 1, rc := some [ReadResult.eof []], options := [],
              offset := 8, limit := 8, eofReached := false,
              closed := false },
        [], [54, 55], none, [[OpenOption.range 6 8]]) ∧
    hardReader.Read
      { o := some 1, rc := some [ReadResult.eof []], options := [],
        offset := 8, limit := 8, eofReached := false, closed := false }
      [] =
      some ({ o := some 1, rc := some [ReadResult.eof []], options := [],
              offset := 8, limit := 8, eofReached := true,
              closed := false },
        [], [], some Err.eofErr, []) ∧
    ({ o := some 1, rc := some [ReadResult.eof []], options := [],
       offset := 8, limit := 8, eofReached := true,
       closed := false } : hardReader).offset = 8 :=
  ⟨by decide, by decide, by decide, rfl⟩

/-- Claim C7: the facade open never fails, performs no I/O (the constructed
reader starts with a nil handle and clear flags), collects the
non-seek/range directives unmodified and in order as passthrough
options, and derives (offset, limit) = (0, -1) when no seek/range
directive is present, the seek offset with unbounded limit for a lone
seek directive, and the decode of the range directive against the
object's total size for a lone range directive. -/
theorem Object.Open_spec (o : Object)
    (decode : Int → Int → Int → Int × Int) (opts : List OpenOption) :
    (Object.Open o decode opts).2 = none ∧
    (Object.Open o decode opts).1.rc = none ∧
    (Object.Open o decode opts).1.eofReached = false ∧
    (Object.Open o decode opts).1.closed = false ∧
    (Object.Open o decode opts).1.o = some o.objRef ∧
    (Object.Open o decode opts).1.options = opts.filter isPassthrough ∧
    (opts.filter (fun x => !isPassthrough x) = [] →
      (Object.Open o decode opts).1.offset = 0 ∧
      (Object.Open o decode opts).1.limit = -1) ∧
    (∀ off,
      opts.filter (fun x => !isPassthrough x) = [OpenOption.seek off] →
      (Object.Open o decode opts).1.offset = off ∧
      (Object.Open o decode opts).1.limit = -1) ∧
    (∀ s e,
      opts.filter (fun x => !isPassthrough x) = [OpenOption.range s e] →
      ((Object.Open o decode opts).1.offset,
        (Object.Open o decode opts).1.limit) = decode s e o.size) := by
  have hscan := scanOptions_split decode o.size opts [] 0 (-1)
  have hopt : (Object.Open o decode opts).1.options =
      opts.filter isPassthrough := by
    show (scanOptions decode o.size opts ([], 0, -1)).1 = _
    rw [hscan]
    rfl
  have hoff : (Object.Open o decode opts).1.offset =
      (deriveOL decode o.size opts 0 (-1)).1 := by
    show (scanOptions decode o.size opts ([], 0, -1)).2.1 = _
    rw [hscan]
  have hlim : (Object.Open o decode opts).1.limit =
      (deriveOL decode o.size opts 0 (-1)).2 := by
    show (scanOptions decode o.size opts ([], 0, -1)).2.2 = _
    rw [hscan]
  refine ⟨rfl, rfl, rfl, rfl, rfl, hopt, ?_, ?_, ?_⟩
  · intro hf
    rw [hoff, hlim, deriveOL_nonpassthrough, hf]
    exact ⟨rfl, rfl⟩
  · intro off hf
    rw [hoff, hlim, deriveOL_nonpassthrough, hf]
    exact ⟨rfl, rfl⟩
  · intro s e hf
    rw [hoff, hlim, deriveOL_nonpassthrough, hf]
    simp [deriveOL]

/-- Witness for C7: a seek directive among two passthrough directives,
a lone range directive, and a passthrough-only list, at a concrete
decode function and an object of size 10. -/
theorem Object.Open_spec_witness :
    (Object.Open ⟨1, 10⟩ (fun s e _ => (s, e))
      [OpenOption.other 5, OpenOption.seek 100, OpenOption.other 7]).2 =
        none ∧
    (Object.Open ⟨1, 10⟩ (fun s e _ => (s, e))
      [OpenOption.other 5, OpenOption.seek 100,
        OpenOption.other 7]).1.options =
      [OpenOption.other 5, OpenOption.other 7] ∧
    (Object.Open ⟨1, 10⟩ (fun s e _ => (s, e))
      [OpenOption.other 5, OpenOption.seek 100,
        OpenOption.other 7]).1.offset = 100 ∧
    (Object.Open ⟨1, 10⟩ (fun s e _ => (s, e))
      [OpenOption.other 5, OpenOption.seek 100,
        OpenOption.other 7]).1.limit = -1 ∧
    ((Object.Open ⟨1, 10⟩ (fun s e _ => (s, e))
      [OpenOption.range 2 5]).1.offset,
     (Object.Open ⟨1, 10⟩ (fun s e _ => (s, e))
      [OpenOption.range 2 5]).1.limit) = (2, 5) ∧
    (Object.Open ⟨1, 10⟩ (fun s e _ => (s, e))
      [OpenOption.other 3]).1.offset = 0 ∧
    (Object.Open ⟨1, 10⟩ (fun s e _ => (s, e))
      [OpenOption.other 3]).1.limit = -1 :=
  ⟨(Object.Open_spec ⟨1, 10⟩ (fun s e _ => (s, e))
      [OpenOption.other 5, OpenOption.seek 100, OpenOption.other 7]).1,
   (Object.Open_spec ⟨1, 10⟩ (fun s e _ => (s, e))
      [OpenOption.other 5, OpenOption.seek 100, OpenOption.other 7]).2.2.2.2.2.1,
   ((Object.Open_spec ⟨1, 10⟩ (fun s e _ => (s, e))
      [OpenOption.other 5, OpenOption.seek 100,
        OpenOption.other 7]).2.2.2.2.2.2.2.1 100 (by decide)).1,
   ((Object.Open_spec ⟨1, 10⟩ (fun s e _ => (s, e))
      [OpenOption.other 5, OpenOption.seek 100,
        OpenOption.other 7]).2.2.2.2.2.2.2.1 100 (by decide)).2,
   (Object.Open_spec ⟨1, 10⟩ (fun s e _ => (s, e))
      [OpenOption.range 2 5]).2.2.2.2.2.2.2.2 2 5 (by decide),
   ((Object.Open_spec ⟨1, 10⟩ (fun s e _ => (s, e))
      [OpenOption.other 3]).2.2.2.2.2.2.1 (by decide)).1,
   ((Object.Open_spec ⟨1, 10⟩ (fun s e _ => (s, e))
      [OpenOption.other 3]).2.2.2.2.2.2.1 (by decide)).2⟩

/-- Claim C8: across every sequence of read calls the offset is monotonically
non-decreasing, once `endOfStreamReached` is set it stays set for the
rest of the sequence, and a non-closed reader with the flag set answers
`(0, EndOfStream)` without touching the oracle. -/
theorem runReads_monotone (k : Nat) :
    ∀ (r : hardReader) (opens : List OpenResult),
      r.offset ≤ (runReads k r opens).offset ∧
      (r.eofReached = true → (runReads k r opens).eofReached = true) ∧
      (r.closed = false → r.eofReached = true →
        hardReader.Read r opens =
          some (r, opens, [], some Err.eofErr, [])) := by
  induction k with
  | zero =>
      intro r opens
      refine ⟨le_refl _, fun h => h, ?_⟩
      intro h1 h2
      unfold hardReader.Read
      rw [if_neg (by simp [h1]), if_pos h2]
  | succ k ih =>
      intro r opens
      have hfast : r.closed = false → r.eofReached = true →
          hardReader.Read r opens =
            some (r, opens, [], some Err.eofErr, []) := by
        intro h1 h2
        unfold hardReader.Read
        rw [if_neg (by simp [h1]), if_pos h2]
      refine ⟨?_, ?_, hfast⟩
      · rw [runReads_succ]
        cases hread : hardReader.Read r opens with
        | none => exact le_refl _
        | some res =>
            obtain ⟨r1, opens1, bytes1, e1, reqs1⟩ := res
            obtain ⟨m1, -, -, -⟩ :=
              Read_invariants r opens r1 opens1 bytes1 e1 reqs1 hread
            exact le_trans m1 (ih r1 opens1).1
      · rw [runReads_succ]
        cases hread : hardReader.Read r opens with
        | none => exact fun h => h
        | some res =>
            obtain ⟨r1, opens1, bytes1, e1, reqs1⟩ := res
            obtain ⟨-, m2, -, -⟩ :=
              Read_invariants r opens r1 opens1 bytes1 e1 reqs1 hread
            exact fun h => (ih r1 opens1).2.1 (m2 h)

/-- Witness for C8: two reads on a reader that already reached
end-of-stream keep the offset at 3 and the flag set, and the single
call answers `(0, EndOfStream)` with the oracle untouched. -/
theorem runReads_monotone_witness :
    (3 : Int) ≤ (runReads 2
      { o := some 1, rc := none, options := [], offset := 3, limit := -1,
        eofReached := true, closed := false } [OpenResult.fail]).offset ∧
    (runReads 2
      { o := some 1, rc := none, options := [], offset := 3, limit := -1,
        eofReached := true, closed := false }
      [OpenResult.fail]).eofReached = true ∧
    hardReader.Read
      { o := some 1, rc := none, options := [], offset := 3, limit := -1,
        eofReached := true, closed := false } [OpenResult.fail] =
      some ({ o := some 1, rc := none, options := [], offset := 3,
              limit := -1, eofReached := true, closed := false },
        [OpenResult.fail], [], some Err.eofErr, []) :=
  ⟨(runReads_monotone 2
      { o := some 1, rc := none, options := [], offset := 3, limit := -1,
        eofReached := true, closed := false } [OpenResult.fail]).1,
   (runReads_monotone 2
      { o := some 1, rc := none, options := [], offset := 3, limit := -1,
        eofReached := true, closed := false } [OpenResult.fail]).2.1 rfl,
   (runReads_monotone 2
      { o := some 1, rc := none, options := [], offset := 3, limit := -1,
        eofReached := true, closed := false } [OpenResult.fail]).2.2
     rfl rfl⟩

end Hard
